import Mathlib

/-!
Verification of the link-consistency / orphan-tracking / hash-dedup core of
the star-imagemaster Obsidian plugin (TypeScript), via a shallow embedding.

Conventions of the embedding:
* Vault paths and note contents are `String`; byte contents are `List Nat`.
* JavaScript `Set` / object maps are modelled as lists; only membership and
  insertion order matter, mirroring how the source uses them.
* Host (Obsidian) collaborators — the metadata cache's `resolvedLinks` and
  `getFirstLinkpathDest`, the vault file tree, and the fallible I/O calls
  (`read`, `modify`, `rename`, `delete`) — are fields of explicit state
  records; fallibility is modelled by boolean oracles naming which paths
  fail, and thrown exceptions by `Except Unit`.
* The dynamic `RegExp` rewrites of `LinkUpdater` are embedded as direct
  left-to-right scanners over `List Char` that replicate the concrete
  regular expressions built by the source (the old path is inserted through
  `escapeRegex`, hence matched literally).
-/

namespace ImageMaster

/-- JavaScript `str.split(sep)` for a single-character separator, on char
lists: always returns at least one (possibly empty) group. -/
def splitChar (sep : Char) : List Char → List (List Char)
  | [] => [[]]
  | c :: cs =>
    match splitChar sep cs with
    | [] => [[]]
    | g :: gs => if c = sep then [] :: g :: gs else (c :: g) :: gs

/-- Lowercasing used by `isImageFile` (`toLowerCase` on ASCII). -/
def lowerStr (s : String) : String := String.mk (s.data.map Char.toLower)

/-- `src/types/index.ts`: `SUPPORTED_IMAGE_EXTENSIONS`. -/
def SUPPORTED_IMAGE_EXTENSIONS : List String :=
  ["png", "jpg", "jpeg", "gif", "webp", "svg", "bmp"]

/-- `src/types/index.ts` `isImageFile`: `filename.split('.').pop()?.toLowerCase()`
is the last group of the dot-split, lowercased; the empty string is falsy in
JS, so it yields `false` without a list lookup. -/
def isImageFile (filename : String) : Bool :=
  let ext := lowerStr (String.mk ((splitChar '.' filename.data).getLastD []))
  if ext = "" then false else SUPPORTED_IMAGE_EXTENSIONS.contains ext

/-- JS `path.split('/').pop() || ''`: the last slash-group of a path. -/
def lastSegment (p : String) : String :=
  String.mk ((splitChar '/' p.data).getLastD [])

/-- JS `path.substring(0, path.lastIndexOf('/')) || ''`: everything before the
last `/`, or `""` when there is none. -/
def folderOf (p : String) : String :=
  String.intercalate "/" (((splitChar '/' p.data).map String.mk).dropLast)

/-- The `while` loop of `getRelativePath`: length of the common leading run of
equal segments. -/
def commonLen : List String → List String → Nat
  | a :: as, b :: bs => if a = b then commonLen as bs + 1 else 0
  | _, _ => 0

/-- `LinkUpdater.getRelativePath` (src/unnamed/part_006 lines 173-194); the
same function appears verbatim as `FileManager.getRelativePath`
(src/unnamed/part_005 lines 282-303). `'../'.repeat(n)` is
`String.join (List.replicate n "../")`. -/
def getRelativePath (fromFolder toPath : String) : String :=
  let fromParts := ((splitChar '/' fromFolder.data).map String.mk).filter (fun s => s ≠ "")
  let toParts := ((splitChar '/' toPath.data).map String.mk).filter (fun s => s ≠ "")
  let c := commonLen fromParts toParts
  let upCount := fromParts.length - c
  let downPath := String.intercalate "/" (toParts.drop c)
  if upCount = 0 then "./" ++ downPath
  else String.join (List.replicate upCount "../") ++ downPath

/-! Section: Regex-replacement machinery

`LinkUpdater.updateLinksInNote` builds four concrete regular expressions and
applies `String.replace(re, …)` with the `g` flag: a left-to-right,
non-overlapping scan that, at each position, either rewrites a match and
resumes after it or copies one character.  Each pattern is embedded as a
`tryMatch` function returning the replacement text and the total number of
characters the match consumed at the current position. -/

/-- Match a literal character sequence at the head, returning the rest. -/
def matchLit : List Char → List Char → Option (List Char)
  | [], cs => some cs
  | _ :: _, [] => none
  | p :: ps, c :: cs => if p = c then matchLit ps cs else none

/-- One global-replace scan.  The fuel is the input length: every step
consumes at least one character, so this is exact. -/
def replaceScanF (tm : List Char → Option (List Char × Nat)) :
    Nat → List Char → List Char
  | 0, cs => cs
  | _ + 1, [] => []
  | fuel + 1, c :: cs =>
    match tm (c :: cs) with
    | some (out, n) => out ++ replaceScanF tm fuel (cs.drop (n - 1))
    | none => c :: replaceScanF tm fuel cs

/-- JS `content.replace(re, …)` with the `g` flag. -/
def replaceScan (tm : List Char → Option (List Char × Nat)) (cs : List Char) :
    List Char :=
  replaceScanF tm cs.length cs

/-- Whether the pattern matches at any position of the input. -/
def hasMatchScan (tm : List Char → Option (List Char × Nat)) :
    List Char → Bool
  | [] => false
  | c :: cs => (tm (c :: cs)).isSome || hasMatchScan tm cs

/-- JS `str.replace(pat, rep)` with a *string* pattern: replace the first
occurrence only. -/
def firstRepl (pat rep : List Char) : List Char → List Char
  | [] => []
  | c :: cs =>
    match matchLit pat (c :: cs) with
    | some rest => rep ++ rest
    | none => c :: firstRepl pat rep cs

/-- Length of a match of `` `!\[\[old(\|[^\]]*)?\]\]` `` at the head of the
input (`old` is escaped by `escapeRegex`, hence literal).  If the optional
alias group matches but `]]` does not follow, backtracking to the empty group
also fails (the group starts with `|`, not `]`), so the position fails. -/
def wikiMatchLen (oldS : List Char) (cs : List Char) : Option Nat :=
  match matchLit ('!' :: '[' :: '[' :: oldS) cs with
  | none => none
  | some rest =>
    match rest with
    | '|' :: r2 =>
      match r2.drop (r2.takeWhile (fun c => c ≠ ']')).length with
      | ']' :: ']' :: _ =>
        some (3 + oldS.length + 1 + (r2.takeWhile (fun c => c ≠ ']')).length + 2)
      | _ => none
    | ']' :: ']' :: _ => some (3 + oldS.length + 2)
    | _ => none

/-- Pattern 1 of `updateLinksInNote`: full-path wikilink,
replacement `` `![[${newPath}$1]]` `` ($1 is the alias group or empty). -/
def tryWiki (oldS newS : List Char) (cs : List Char) :
    Option (List Char × Nat) :=
  match wikiMatchLen oldS cs with
  | none => none
  | some n =>
    let capt := (cs.take n).drop (3 + oldS.length)
    some ('!' :: '[' :: '[' :: (newS ++ capt), n)

/-- Pattern 2 of `updateLinksInNote`: name-only wikilink.  The replacement
callback consults `getFirstLinkpathDest(oldName, noteFile.path)`; since both
arguments are fixed for the whole call, the resolution outcome `resolveOK`
is a single boolean.  On a match it returns
`match.replace(oldName, newName)` when the bare name resolves to the old
path, and the match unchanged otherwise. -/
def tryWikiName (resolveOK : Bool) (oldName newName : List Char)
    (cs : List Char) : Option (List Char × Nat) :=
  match wikiMatchLen oldName cs with
  | none => none
  | some n =>
    let matched := cs.take n
    some ((if resolveOK then firstRepl oldName newName matched else matched), n)

/-- Pattern 3 of `updateLinksInNote`: absolute markdown link
`` `!\[([^\]]*)\]\(\/?old\)` ``, replacement `` `![$1](/${newPath})` ``.
The optional `/?` is greedy: a leading slash is tried first, then the
slashless reading. -/
def tryMdAbs (oldS newS : List Char) (cs : List Char) :
    Option (List Char × Nat) :=
  match matchLit ['!', '['] cs with
  | none => none
  | some r1 =>
    let alt := r1.takeWhile (fun c => c ≠ ']')
    match r1.drop alt.length with
    | ']' :: '(' :: r3 =>
      let out := '!' :: '[' :: (alt ++ ']' :: '(' :: '/' :: (newS ++ [')']))
      match r3 with
      | '/' :: r4 =>
        if (matchLit (oldS ++ [')']) r4).isSome then
          some (out, 2 + alt.length + 2 + 1 + (oldS.length + 1))
        else if (matchLit (oldS ++ [')']) r3).isSome then
          some (out, 2 + alt.length + 2 + (oldS.length + 1))
        else none
      | _ =>
        if (matchLit (oldS ++ [')']) r3).isSome then
          some (out, 2 + alt.length + 2 + (oldS.length + 1))
        else none
    | _ => none

/-- Pattern 4 of `updateLinksInNote`: relative markdown link
`` `!\[([^\]]*)\]\(oldRelative\)` ``, replacement `` `![$1](newRelative)` ``. -/
def tryMdRel (oldRel newRel : List Char) (cs : List Char) :
    Option (List Char × Nat) :=
  match matchLit ['!', '['] cs with
  | none => none
  | some r1 =>
    let alt := r1.takeWhile (fun c => c ≠ ']')
    match r1.drop alt.length with
    | ']' :: '(' :: r3 =>
      if (matchLit (oldRel ++ [')']) r3).isSome then
        some ('!' :: '[' :: (alt ++ ']' :: '(' :: (newRel ++ [')'])),
          2 + alt.length + 2 + (oldRel.length + 1))
      else none
    | _ => none

/-- Run a global replace on a `String`. -/
def runReplace (tm : List Char → Option (List Char × Nat)) (s : String) :
    String :=
  String.mk (replaceScan tm s.data)

/-- The pure content transformation of `updateLinksInNote`
(src/unnamed/part_006 lines 65-113): the four replacements in source order.
`resolve` stands for `metadataCache.getFirstLinkpathDest`. -/
def updateNoteContent (resolve : String → String → Option String)
    (notePath oldPath newPath content : String) : String :=
  let oldName := lastSegment oldPath
  let newName := lastSegment newPath
  let c1 := runReplace (tryWiki oldPath.data newPath.data) content
  let c2 :=
    if oldName ≠ newName then
      runReplace
        (tryWikiName (resolve oldName notePath == some oldPath)
          oldName.data newName.data) c1
    else c1
  let c3 := runReplace (tryMdAbs oldPath.data newPath.data) c2
  let noteFolder := folderOf notePath
  let oldRelative := getRelativePath noteFolder oldPath
  let newRelative := getRelativePath noteFolder newPath
  runReplace (tryMdRel oldRelative.data newRelative.data) c3

/-! Section: OrphanDetector (src/unnamed/part_007)

State of the plugin as the orphan detector sees it:
`files` is the vault file tree (`vault.getFiles` / `getAbstractFileByPath` /
`adapter.exists`), `resolvedLinks` the metadata cache's map from note path to
the list of link targets resolved in that note, `orphanImages` the
detector's `Set<string>` in insertion order.  `renameFails p` / `deleteFails p`
model `vault.rename` / `vault.delete` throwing for path `p`. -/

inductive OrphanHandling where
  | markOnly | moveToFolder | keep
deriving DecidableEq

structure OrphanSt where
  files : List String
  resolvedLinks : List (String × List String)
  orphanImages : List String
  orphanHandling : OrphanHandling
  orphanFolder : String
  renameFails : String → Bool
  deleteFails : String → Bool

/-- `OrphanDetector.getAllReferencedImages`: every resolved link target that
is an image file, across all notes (a `Set`; list order is irrelevant,
only membership is used). -/
def getAllReferencedImages (links : List (String × List String)) :
    List String :=
  (links.flatMap (fun e => e.2)).filter isImageFile

/-- The loop body of `OrphanDetector.isOrphan`: does any note's resolved
links contain `p`? -/
def notesLinkTo (links : List (String × List String)) (p : String) : Bool :=
  links.any (fun e => e.2.contains p)

/-- `OrphanDetector.isOrphan` (lines 67-85): cache hit returns true; else a
direct scan of `resolvedLinks`; a miss that finds no referent caches the
path as orphan. -/
def isOrphan (s : OrphanSt) (p : String) : Bool × OrphanSt :=
  if s.orphanImages.contains p then (true, s)
  else if notesLinkTo s.resolvedLinks p then (false, s)
  else (true, { s with orphanImages := s.orphanImages ++ [p] })

/-- `fileName.replace(/\.[^.]+$/, '')`: drop a final `.ext` chunk (at least
one non-dot character), if present. -/
def stripLastDotChunk (fileName : String) : String :=
  let r := fileName.data.reverse
  let chunk := r.takeWhile (fun c => c ≠ '.')
  match chunk, r.drop chunk.length with
  | _ :: _, '.' :: r2 => String.mk r2.reverse
  | _, _ => fileName

/-- The name-collision `while` loop of `moveOrphansToFolder` (lines 117-124):
while the candidate exists, propose `<folder>/<base>_<counter>.<ext>` and
bump the counter.  Fuel `files.length + 1` always suffices: each probe needs
`finalPath ∈ files` and the candidates are pairwise distinct. -/
def collisionLoop (files : List String) (targetFolder fileName : String) :
    Nat → String → Nat → String
  | 0, finalPath, _ => finalPath
  | fuel + 1, finalPath, counter =>
    if files.contains finalPath then
      let ext := String.mk ((splitChar '.' fileName.data).getLastD [])
      let nameWithoutExt := stripLastDotChunk fileName
      collisionLoop files targetFolder fileName fuel
        (targetFolder ++ "/" ++ nameWithoutExt ++ "_" ++ toString counter
          ++ "." ++ ext)
        (counter + 1)
    else finalPath

/-- `OrphanDetector.moveOrphansToFolder` (lines 104-138): per path, if it
resolves to a file, move it to `<orphanFolder>/<name>` (collision-resolved);
a failing `vault.rename` is caught and skipped.  Only `files` changes;
`ensureFolderExists` touches folders, which this state does not track.
`normalizePath` is the identity on the well-formed slash-joined paths
produced here. -/
def moveOrphansToFolder (s : OrphanSt) : List String → OrphanSt
  | [] => s
  | p :: ps =>
    if s.files.contains p then
      let fileName := lastSegment p
      let newPath := s.orphanFolder ++ "/" ++ fileName
      let finalPath :=
        collisionLoop s.files s.orphanFolder fileName (s.files.length + 1)
          newPath 1
      if s.renameFails p then moveOrphansToFolder s ps
      else
        moveOrphansToFolder
          { s with files := finalPath :: s.files.erase p } ps
    else moveOrphansToFolder s ps

/-- `OrphanDetector.scanOrphanImages` (lines 22-44): clear the orphan set,
re-derive it from the vault's image files minus the referenced set, then —
under the `moveToFolder` setting and a non-empty result — relocate the
discovered orphans. -/
def scanOrphanImages (s : OrphanSt) : List String × OrphanSt :=
  let allImages := s.files.filter isImageFile
  let referenced := getAllReferencedImages s.resolvedLinks
  let orphans := allImages.filter (fun p => !(referenced.contains p))
  let s1 := { s with orphanImages := orphans }
  if s.orphanHandling = OrphanHandling.moveToFolder ∧ 0 < orphans.length then
    (orphans, moveOrphansToFolder s1 orphans)
  else (orphans, s1)

/-- `OrphanDetector.deleteOrphanImages` (lines 143-160): per path, if it
resolves to a file, try `vault.delete`; on success remove it from the orphan
set and count it; a throwing delete is caught and skipped. -/
def deleteOrphanImages (s : OrphanSt) : List String → Nat × OrphanSt
  | [] => (0, s)
  | p :: ps =>
    if s.files.contains p then
      if s.deleteFails p then deleteOrphanImages s ps
      else
        let s1 :=
          { s with files := s.files.erase p,
                   orphanImages := s.orphanImages.filter (fun q => q ≠ p) }
        let r := deleteOrphanImages s1 ps
        (r.1 + 1, r.2)
    else deleteOrphanImages s ps

/-! Section: LinkUpdater (src/unnamed/part_006), stateful part

`notes` maps note path to stored content (`vault.read` / `vault.modify`);
`resolve` is `metadataCache.getFirstLinkpathDest`; `readFails p` /
`writeFails p` model the respective vault call throwing for note `p`. -/

structure LinkSt where
  notes : List (String × String)
  resolvedLinks : List (String × List String)
  resolve : String → String → Option String
  readFails : String → Bool
  writeFails : String → Bool

/-- `vault.getAbstractFileByPath` + `vault.read` result for a note path. -/
def lookupNote (s : LinkSt) (p : String) : Option String :=
  (s.notes.find? (fun e => e.1 == p)).map Prod.snd

/-- `vault.modify`: store new content for an existing note path. -/
def setNote (notes : List (String × String)) (p c : String) :
    List (String × String) :=
  notes.map (fun e => if e.1 = p then (p, c) else e)

/-- `LinkUpdater.findNotesReferencingImage` (lines 43-60): the notes whose
resolved links contain the image path, in map order. -/
def findNotesReferencingImage (links : List (String × List String))
    (imagePath : String) : List String :=
  (links.filter (fun e => e.2.contains imagePath)).map Prod.fst

/-- `LinkUpdater.updateLinksInNote` (lines 65-121): read (may throw), apply
the four replacements, and write back only if the content changed (the
write may throw).  Returns whether the note was updated. -/
def updateLinksInNote (s : LinkSt) (notePath oldPath newPath : String) :
    Except Unit Bool × LinkSt :=
  if s.readFails notePath then (Except.error (), s)
  else
    let content := (lookupNote s notePath).getD ""
    let newContent := updateNoteContent s.resolve notePath oldPath newPath content
    if newContent ≠ content then
      if s.writeFails notePath then (Except.error (), s)
      else (Except.ok true, { s with notes := setNote s.notes notePath newContent })
    else (Except.ok false, s)

/-- The `for` loop of `updateImageReferences`: referencing notes that resolve
to a file are rewritten; there is no `try`/`catch`, so an exception from
`updateLinksInNote` propagates, keeping the state reached so far. -/
def uirLoop (oldPath newPath : String) :
    List String → Nat → LinkSt → Except Unit Nat × LinkSt
  | [], n, s => (Except.ok n, s)
  | notePath :: rest, n, s =>
    if (lookupNote s notePath).isSome then
      match updateLinksInNote s notePath oldPath newPath with
      | (Except.error e, s1) => (Except.error e, s1)
      | (Except.ok updated, s1) =>
        uirLoop oldPath newPath rest (if updated then n + 1 else n) s1
    else uirLoop oldPath newPath rest n s

/-- `LinkUpdater.updateImageReferences` (lines 19-38). -/
def updateImageReferences (s : LinkSt) (oldPath newPath : String) :
    Except Unit Nat × LinkSt :=
  uirLoop oldPath newPath (findNotesReferencingImage s.resolvedLinks oldPath) 0 s

/-- The `for` loop of `batchUpdateReferences` (lines 157-168): sequential,
sums counts, and — having no `try`/`catch` — stops at the first exception. -/
def burLoop : List (String × String) → Nat → LinkSt → Except Unit Nat × LinkSt
  | [], total, s => (Except.ok total, s)
  | (o, n) :: rest, total, s =>
    match updateImageReferences s o n with
    | (Except.error e, s1) => (Except.error e, s1)
    | (Except.ok c, s1) => burLoop rest (total + c) s1

/-- `LinkUpdater.batchUpdateReferences`. -/
def batchUpdateReferences (s : LinkSt) (updates : List (String × String)) :
    Except Unit Nat × LinkSt :=
  burLoop updates 0 s

/-! Section: HashService (src/src/core/HashService.ts)

`hashFn` abstracts `computeHash` (truncated SHA-256 of the bytes — an
external crypto primitive, deterministic in the content).  The cache is the
`HashCache` object in insertion order; `Object.entries` iterates it in that
order, keyed assignment updates in place or appends. -/

structure HashEntry where
  hash : String
  mtime : Nat
deriving DecidableEq

structure VFile where
  path : String
  mtime : Nat
  content : List Nat
deriving DecidableEq

structure HashSt where
  cache : List (String × HashEntry)
  files : List VFile
  hashFn : List Nat → String

/-- `this.cache[path]` read. -/
def cacheLookup (cache : List (String × HashEntry)) (p : String) :
    Option HashEntry :=
  (cache.find? (fun e => e.1 == p)).map Prod.snd

/-- `this.cache[path] = entry`: update in place, or append a new key. -/
def cacheSet (cache : List (String × HashEntry)) (p : String) (e : HashEntry) :
    List (String × HashEntry) :=
  if cache.any (fun q => q.1 == p) then
    cache.map (fun q => if q.1 = p then (p, e) else q)
  else cache ++ [(p, e)]

/-- `HashService.calculateHash` (lines 60-78): trust the cached digest only
when the stored mtime equals the file's current mtime; otherwise hash the
current bytes and refresh the entry. -/
def calculateHash (s : HashSt) (f : VFile) : String × HashSt :=
  match cacheLookup s.cache f.path with
  | some cached =>
    if cached.mtime = f.mtime then (cached.hash, s)
    else
      let h := s.hashFn f.content
      (h, { s with cache := cacheSet s.cache f.path ⟨h, f.mtime⟩ })
  | none =>
    let h := s.hashFn f.content
    (h, { s with cache := cacheSet s.cache f.path ⟨h, f.mtime⟩ })

/-- The cache-scan loop of `findDuplicate` (lines 103-114) over an
`Object.entries` snapshot: a digest match whose path still resolves returns
that path; a digest match whose path is gone is recorded for deletion. -/
def fdScanCache (files : List VFile) (newHash : String) :
    List (String × HashEntry) → Option String × List String
  | [] => (none, [])
  | (p, e) :: rest =>
    if e.hash = newHash then
      if files.any (fun f => f.path == p) then (some p, [])
      else
        let r := fdScanCache files newHash rest
        (r.1, p :: r.2)
    else fdScanCache files newHash rest

/-- The vault-scan fallback of `findDuplicate` (lines 117-126): hash every
image not yet cached (each `calculateHash` call also caches it). -/
def fdVaultScan (newHash : String) : List VFile → HashSt → Option String × HashSt
  | [], s => (none, s)
  | f :: fs, s =>
    if (cacheLookup s.cache f.path).isNone then
      let r := calculateHash s f
      if r.1 = newHash then (some f.path, r.2)
      else fdVaultScan newHash fs r.2
    else fdVaultScan newHash fs s

/-- `HashService.findDuplicate` (lines 99-129). -/
def findDuplicate (s : HashSt) (data : List Nat) : Option String × HashSt :=
  let newHash := s.hashFn data
  let scan := fdScanCache s.files newHash s.cache
  let s1 := { s with cache := s.cache.filter (fun q => !(scan.2.contains q.1)) }
  match scan.1 with
  | some p => (some p, s1)
  | none => fdVaultScan newHash (s1.files.filter (fun f => isImageFile f.path)) s1

/-! Section: Concrete instances used by counterexamples and witnesses -/

/-- A host resolver for a small vault: in note `n/note.md`, the bare names
`x.png` / `y.png` resolve to the images in `imgs/`. -/
def c2resolve : String → String → Option String := fun name note =>
  if name = "x.png" && note = "n/note.md" then some "imgs/x.png"
  else if name = "y.png" && note = "n/note.md" then some "imgs/y.png"
  else none

/-- A note containing a link to `imgs/x.png` in each of the four supported
syntaxes (the absolute markdown link written with its leading slash), for
the note `n/note.md`. -/
def fourFormNote : String :=
  "![[imgs/x.png]]\n![[x.png]]\n![x](/imgs/x.png)\n![x](../imgs/x.png)"

/-- A resolver under which the bare name `x.png` in note `n/note.md`
resolves to `n/x.png` — an unrelated file sharing the name of the image
being moved. -/
def c9resolve : String → String → Option String := fun name note =>
  if name = "x.png" && note = "n/note.md" then some "n/x.png" else none

/-- A one-note vault with infallible I/O, whose note mentions no image
link at all. -/
def c8state : LinkSt :=
  { notes := [("n.md", "hello world")]
    resolvedLinks := [("n.md", [])]
    resolve := fun _ _ => none
    readFails := fun _ => false
    writeFails := fun _ => false }

/-- Two files on disk plus one phantom entry in the orphan set; deletes
never throw. -/
def c7state : OrphanSt :=
  { files := ["a.png", "b.png"]
    resolvedLinks := []
    orphanImages := ["a.png", "b.png", "z.png"]
    orphanHandling := OrphanHandling.markOnly
    orphanFolder := "_orphaned"
    renameFails := fun _ => false
    deleteFails := fun _ => false }

/-- Two notes referencing `img.png`; reading the first one throws. -/
def c3state : LinkSt :=
  { notes := [("n1.md", "![[img.png]]"), ("n2.md", "![[img.png]]")]
    resolvedLinks := [("n1.md", ["img.png"]), ("n2.md", ["img.png"])]
    resolve := fun _ _ => none
    readFails := fun p => p == "n1.md"
    writeFails := fun _ => false }

/-- Two notes listed as referencing `img.png` (the second one's stored
content no longer holds a matching token); I/O never fails. -/
def c3okstate : LinkSt :=
  { notes := [("n1.md", "![[img.png]]"), ("n2.md", "no links here")]
    resolvedLinks := [("n1.md", ["img.png"]), ("n2.md", ["img.png"])]
    resolve := fun _ _ => none
    readFails := fun _ => false
    writeFails := fun _ => false }

/-- One image whose bytes were modified (mtime 2) after its digest was
cached at mtime 1: the cached digest `hX` no longer matches the digest
`hY` of the current bytes `[1]`. -/
def c4state : HashSt :=
  { cache := [("a.png", ⟨"hX", 1⟩)]
    files := [⟨"a.png", 2, [1]⟩]
    hashFn := fun b => if b = [0] then "hX" else "hY" }

/-- An empty cache over two byte-identical images, for the full-scan
fallback. -/
def c6scan : HashSt :=
  { cache := []
    files := [⟨"i.png", 0, [7]⟩, ⟨"j.png", 0, [7]⟩]
    hashFn := fun b => if b = [7] then "H" else "K" }

/-- A cache entry whose digest matches the probe but whose file is gone. -/
def c6stale : HashSt :=
  { cache := [("gone.png", ⟨"h0", 0⟩)]
    files := []
    hashFn := fun _ => "h0" }

/-- A cache entry for a vanished file whose digest does not match any
probe. -/
def c6ghost : HashSt :=
  { cache := [("ghost.png", ⟨"h1", 0⟩)]
    files := []
    hashFn := fun _ => "h2" }

/-- Whether `updateLinksInNote` would write note `np`: the note resolves to
a file and its content changes under the four replacement rules. -/
def noteWouldChange (s : LinkSt) (oldPath newPath np : String) : Bool :=
  (lookupNote s np).isSome &&
    (updateNoteContent s.resolve np oldPath newPath ((lookupNote s np).getD "")
      != (lookupNote s np).getD "")

end ImageMaster

namespace ImageMaster

/-! Section: Generic lemmas about the global-replace scanner -/

theorem replaceScanF_nomatch (tm : List Char → Option (List Char × Nat)) :
    ∀ (fuel : Nat) (cs : List Char), hasMatchScan tm cs = false →
      replaceScanF tm fuel cs = cs := by
  intro fuel
  induction fuel with
  | zero => intro cs _; rfl
  | succ m ih =>
    intro cs h
    match cs with
    | [] => rfl
    | c :: cs' =>
      simp only [hasMatchScan, Bool.or_eq_false_iff] at h
      have h1 : tm (c :: cs') = none := by
        cases htm : tm (c :: cs') with
        | none => rfl
        | some r => rw [htm] at h; simp at h
      simp [replaceScanF, h1, ih cs' h.2]

theorem runReplace_nomatch (tm : List Char → Option (List Char × Nat))
    (s : String) (h : hasMatchScan tm s.data = false) : runReplace tm s = s := by
  simp [runReplace, replaceScan, replaceScanF_nomatch tm _ _ h]

theorem replaceScanF_keep (tm : List Char → Option (List Char × Nat))
    (hid : ∀ cs out n, tm cs = some (out, n) → out = cs.take n ∧ 1 ≤ n) :
    ∀ (fuel : Nat) (cs : List Char), replaceScanF tm fuel cs = cs := by
  intro fuel
  induction fuel with
  | zero => intro cs; rfl
  | succ m ih =>
    intro cs
    match cs with
    | [] => rfl
    | c :: cs' =>
      cases htm : tm (c :: cs') with
      | none => simp [replaceScanF, htm, ih cs']
      | some r =>
        obtain ⟨out, n⟩ := r
        obtain ⟨ho, hn⟩ := hid _ _ _ htm
        obtain ⟨k, rfl⟩ : ∃ k, n = k + 1 := ⟨n - 1, by omega⟩
        have hdrop : cs'.drop (k + 1 - 1) = (c :: cs').drop (k + 1) := by simp
        calc replaceScanF tm (m + 1) (c :: cs')
            = out ++ replaceScanF tm m (cs'.drop (k + 1 - 1)) := by
              simp [replaceScanF, htm]
          _ = (c :: cs').take (k + 1) ++ (c :: cs').drop (k + 1) := by
              rw [ho, hdrop, ih]
          _ = c :: cs' := List.take_append_drop _ _

theorem runReplace_keep (tm : List Char → Option (List Char × Nat))
    (hid : ∀ cs out n, tm cs = some (out, n) → out = cs.take n ∧ 1 ≤ n)
    (s : String) : runReplace tm s = s := by
  simp [runReplace, replaceScan, replaceScanF_keep tm hid]

theorem wikiMatchLen_pos {oldS cs : List Char} {n : Nat}
    (h : wikiMatchLen oldS cs = some n) : 1 ≤ n := by
  unfold wikiMatchLen at h
  repeat' split at h
  all_goals first
    | (injection h with h'; omega)
    | exact absurd h (by simp)

theorem tryWikiName_keep (oldName newName : List Char) :
    ∀ cs out n, tryWikiName false oldName newName cs = some (out, n) →
      out = cs.take n ∧ 1 ≤ n := by
  intro cs out n h
  unfold tryWikiName at h
  cases hw : wikiMatchLen oldName cs with
  | none => rw [hw] at h; exact absurd h (by simp)
  | some m =>
    rw [hw] at h
    simp only [if_neg (by simp : ¬(false = true)), Option.some.injEq,
      Prod.mk.injEq] at h
    obtain ⟨h1, h2⟩ := h
    subst h2
    exact ⟨h1.symm, wikiMatchLen_pos hw⟩

/-! Section: Claim C2 — rewrite round-trip -/

/-- C2 counterexample: the claim "applying `updateLinksInNote` with (A, B)
and then immediately with (B, A) restores the note content byte-for-byte …
for all four supported link syntaxes" fails.  The absolute-markdown pattern
`` `!\[([^\]]*)\]\(\/?old\)` `` accepts a missing leading slash but always
emits `` `![$1](/new)` ``, so the round trip turns `![x](imgs/x.png)` into
`![x](/imgs/x.png)` — not the original bytes. -/
theorem c2_roundtrip_counterexample :
    updateNoteContent c2resolve "n/note.md" "imgs/y.png" "imgs/x.png"
        (updateNoteContent c2resolve "n/note.md" "imgs/x.png" "imgs/y.png"
          "![x](imgs/x.png)")
      ≠ "![x](imgs/x.png)" := by decide

/-- C2 amended: for a note holding links to the image in all four supported
syntaxes with the absolute markdown link written in its leading-slash form,
rewriting A→B and then B→A restores the content byte-for-byte (and the
forward rewrite really changes all four links); an absolute markdown link
written without the slash is instead canonicalized to the slash form by the
round trip. -/
theorem c2_roundtrip_amended :
    updateNoteContent c2resolve "n/note.md" "imgs/y.png" "imgs/x.png"
        (updateNoteContent c2resolve "n/note.md" "imgs/x.png" "imgs/y.png"
          fourFormNote)
      = fourFormNote
    ∧ updateNoteContent c2resolve "n/note.md" "imgs/x.png" "imgs/y.png"
        fourFormNote
      = "![[imgs/y.png]]\n![[y.png]]\n![x](/imgs/y.png)\n![x](../imgs/y.png)"
    ∧ updateNoteContent c2resolve "n/note.md" "imgs/y.png" "imgs/x.png"
        (updateNoteContent c2resolve "n/note.md" "imgs/x.png" "imgs/y.png"
          "![x](imgs/x.png)")
      = "![x](/imgs/x.png)" := by
  refine ⟨by decide, by decide, by decide⟩

/-! Section: Claim C9 — bare-filename wikilink guard -/

/-- C9 counterexample: the claim "a bare-filename wikilink … is rewritten
only when (a) the filename changed and (b) the bare name resolves to
oldPath" fails when the old path is itself a bare filename: moving root
image `x.png` to `sub/x.png` leaves the filename unchanged and the bare
link resolves to the unrelated `n/x.png`, yet the full-path rule rewrites
`![[x.png]]` unconditionally. -/
theorem c9_bare_name_counterexample :
    updateNoteContent c9resolve "n/note.md" "x.png" "sub/x.png" "![[x.png]]"
        = "![[sub/x.png]]"
    ∧ lastSegment "x.png" = lastSegment "sub/x.png"
    ∧ c9resolve "x.png" "n/note.md" ≠ some "x.png" := by
  refine ⟨by decide, by decide, by decide⟩

/-- C9 amended: the name-only rule itself does honour both guards — it is
skipped entirely when the filename did not change, and whenever the bare
old name does not resolve (from this note) to the old path, a whole pass of
the name-only replacement leaves the content byte-for-byte unchanged.  The
unconditional rewrite in the counterexample comes from the separate
full-path rule, whose pattern coincides with the bare name when `oldPath`
has no folder component. -/
theorem c9_bare_name_guard (resolve : String → String → Option String)
    (notePath oldPath newPath content : String)
    (hres : resolve (lastSegment oldPath) notePath ≠ some oldPath) :
    runReplace
        (tryWikiName (resolve (lastSegment oldPath) notePath == some oldPath)
          (lastSegment oldPath).data (lastSegment newPath).data) content
      = content
    ∧ (lastSegment oldPath = lastSegment newPath →
        updateNoteContent resolve notePath oldPath newPath content =
          runReplace
            (tryMdRel (getRelativePath (folderOf notePath) oldPath).data
              (getRelativePath (folderOf notePath) newPath).data)
            (runReplace (tryMdAbs oldPath.data newPath.data)
              (runReplace (tryWiki oldPath.data newPath.data) content))) := by
  have hbeq : (resolve (lastSegment oldPath) notePath == some oldPath) = false :=
    beq_eq_false_iff_ne.mpr hres
  constructor
  · rw [hbeq]
    exact runReplace_keep _ (tryWikiName_keep _ _) content
  · intro hname
    simp [updateNoteContent, hname]

/-- C9 witness: the guard theorem applied in a concrete vault in which the
bare name `x.png` resolves to the unrelated `n/x.png`. -/
theorem c9_bare_name_guard_witness :
    runReplace
        (tryWikiName (c9resolve (lastSegment "a/x.png") "n/note.md" == some "a/x.png")
          (lastSegment "a/x.png").data (lastSegment "b/y.png").data) "![[x.png]]"
      = "![[x.png]]"
    ∧ (lastSegment "a/x.png" = lastSegment "b/y.png" →
        updateNoteContent c9resolve "n/note.md" "a/x.png" "b/y.png" "![[x.png]]" =
          runReplace
            (tryMdRel (getRelativePath (folderOf "n/note.md") "a/x.png").data
              (getRelativePath (folderOf "n/note.md") "b/y.png").data)
            (runReplace (tryMdAbs "a/x.png".data "b/y.png".data)
              (runReplace (tryWiki "a/x.png".data "b/y.png".data) "![[x.png]]"))) :=
  c9_bare_name_guard c9resolve "n/note.md" "a/x.png" "b/y.png" "![[x.png]]"
    (by decide)

/-! Section: Claim C8 — writes happen iff the content changed -/

/-- C8: `updateLinksInNote` writes the note back if and only if the
rewritten content differs from the stored content, and a note in which none
of the four replacement patterns matches is left unchanged, with no write
issued and the note reported as not updated. -/
theorem c8_write_iff_changed (s : LinkSt) (notePath oldPath newPath : String)
    (hr : s.readFails notePath = false) (hw : s.writeFails notePath = false) :
    (updateNoteContent s.resolve notePath oldPath newPath
          ((lookupNote s notePath).getD "") = (lookupNote s notePath).getD "" →
      updateLinksInNote s notePath oldPath newPath = (Except.ok false, s))
    ∧ (updateNoteContent s.resolve notePath oldPath newPath
          ((lookupNote s notePath).getD "") ≠ (lookupNote s notePath).getD "" →
      updateLinksInNote s notePath oldPath newPath =
        (Except.ok true,
          { s with
              notes := setNote s.notes notePath
                (updateNoteContent s.resolve notePath oldPath newPath
                  ((lookupNote s notePath).getD "")) }))
    ∧ (hasMatchScan (tryWiki oldPath.data newPath.data)
          ((lookupNote s notePath).getD "").data = false →
      (lastSegment oldPath ≠ lastSegment newPath →
        hasMatchScan
          (tryWikiName (s.resolve (lastSegment oldPath) notePath == some oldPath)
            (lastSegment oldPath).data (lastSegment newPath).data)
          ((lookupNote s notePath).getD "").data = false) →
      hasMatchScan (tryMdAbs oldPath.data newPath.data)
          ((lookupNote s notePath).getD "").data = false →
      hasMatchScan
          (tryMdRel (getRelativePath (folderOf notePath) oldPath).data
            (getRelativePath (folderOf notePath) newPath).data)
          ((lookupNote s notePath).getD "").data = false →
      updateLinksInNote s notePath oldPath newPath = (Except.ok false, s)) := by
  refine ⟨?_, ?_, ?_⟩
  · intro h
    simp [updateLinksInNote, hr, h]
  · intro h
    simp [updateLinksInNote, hr, hw, h]
  · intro h1 h2 h3 h4
    have ht : updateNoteContent s.resolve notePath oldPath newPath
        ((lookupNote s notePath).getD "") = (lookupNote s notePath).getD "" := by
      unfold updateNoteContent
      by_cases hn : lastSegment oldPath = lastSegment newPath
      · simp only [hn, ne_eq, not_true_eq_false, if_false]
        rw [runReplace_nomatch _ _ h1, runReplace_nomatch _ _ h3,
          runReplace_nomatch _ _ h4]
      · simp only [ne_eq, hn, not_false_eq_true, if_true]
        rw [runReplace_nomatch _ _ h1, runReplace_nomatch _ _ (h2 hn),
          runReplace_nomatch _ _ h3, runReplace_nomatch _ _ h4]
    simp [updateLinksInNote, hr, ht]

/-- C8 witness: a note with no image links is reported as not updated and
the vault state is untouched. -/
theorem c8_write_iff_changed_witness :
    updateLinksInNote c8state "n.md" "a/x.png" "b/y.png" =
      (Except.ok false, c8state) :=
  (c8_write_iff_changed c8state "n.md" "a/x.png" "b/y.png" rfl rfl).2.2
    (by decide) (fun _ => by decide) (by decide) (by decide)

/-! Section: Claim C5 — relative paths by common-prefix resolution -/

/-- The `while` loop of `getRelativePath` computes the length of the longest
common leading run of equal segments. -/
theorem commonLen_eq :
    ∀ (a b : List String),
      commonLen a b = ((a.zip b).takeWhile (fun q => q.1 == q.2)).length := by
  intro a
  induction a with
  | nil => intro b; cases b <;> rfl
  | cons x xs ih =>
    intro b
    cases b with
    | nil => rfl
    | cons y ys =>
      by_cases h : x = y
      · simp [commonLen, h, ih, Nat.add_comm]
      · simp [commonLen, h]

/-- C5: `getRelativePath` strips the shared leading segments (the longest
common run of equal path segments), emits one `../` per remaining segment
of the source folder — `./` when none remain — and appends the remaining
target segments; in particular a note folder `a/b` and target `c/x.png`
give exactly `../../c/x.png`. -/
theorem c5_relative_path_shape :
    getRelativePath "a/b" "c/x.png" = "../../c/x.png"
    ∧ ∀ fromFolder toPath : String,
        getRelativePath fromFolder toPath =
          (let fp := ((splitChar '/' fromFolder.data).map String.mk).filter
            (fun s => s ≠ "")
           let tp := ((splitChar '/' toPath.data).map String.mk).filter
            (fun s => s ≠ "")
           let c := ((fp.zip tp).takeWhile (fun q => q.1 == q.2)).length
           if fp.length - c = 0 then
             "./" ++ String.intercalate "/" (tp.drop c)
           else
             String.join (List.replicate (fp.length - c) "../")
               ++ String.intercalate "/" (tp.drop c)) := by
  refine ⟨by decide, fun ff tp => ?_⟩
  simp only [getRelativePath, commonLen_eq]

/-! Section: Claim C10 — the image-extension predicate -/

theorem splitChar_ne_nil (sep : Char) : ∀ cs, splitChar sep cs ≠ [] := by
  intro cs
  induction cs with
  | nil => simp [splitChar]
  | cons c cs ih =>
    simp only [splitChar]
    cases h : splitChar sep cs with
    | nil => simp
    | cons g gs => by_cases hc : c = sep <;> simp [hc]

theorem splitChar_of_all_ne (sep : Char) :
    ∀ cs, (∀ a ∈ cs, a ≠ sep) → splitChar sep cs = [cs] := by
  intro cs
  induction cs with
  | nil => intro _; rfl
  | cons c cs ih =>
    intro h
    have hc : c ≠ sep := h c (by simp)
    have ht := ih (fun a ha => h a (by simp [ha]))
    simp [splitChar, ht, hc]

theorem two_le_splitChar_length (sep : Char) :
    ∀ cs, sep ∈ cs → 2 ≤ (splitChar sep cs).length := by
  intro cs
  induction cs with
  | nil => intro h; cases h
  | cons c cs ih =>
    intro h
    simp only [splitChar]
    cases hs : splitChar sep cs with
    | nil => exact absurd hs (splitChar_ne_nil sep cs)
    | cons g gs =>
      by_cases hc : c = sep
      · simp [hc]
      · have hmem : sep ∈ cs := by
          rcases List.mem_cons.mp h with h' | h'
          · exact absurd h'.symm hc
          · exact h'
        have h2 := ih hmem
        rw [hs] at h2
        simp only [List.length_cons] at h2 ⊢
        simp [hc]
        omega

theorem getLastD_irrel {α : Type} : ∀ (l : List α) (d d' : α), l ≠ [] →
    l.getLastD d = l.getLastD d' := by
  intro l d d' h
  cases l with
  | nil => exact absurd rfl h
  | cons a l => simp only [List.getLastD_cons]

theorem getLastD_splitChar_append (sep : Char) :
    ∀ (l r : List Char), (∀ a ∈ r, a ≠ sep) →
      (splitChar sep (l ++ sep :: r)).getLastD [] = r := by
  intro l
  induction l with
  | nil =>
    intro r h
    simp [splitChar, splitChar_of_all_ne sep r h, List.getLastD_cons]
  | cons c l ih =>
    intro r h
    have hmem : sep ∈ (l ++ sep :: r) := by simp
    obtain ⟨g, gs, hs⟩ : ∃ g gs, splitChar sep (l ++ sep :: r) = g :: gs := by
      cases h' : splitChar sep (l ++ sep :: r) with
      | nil => exact absurd h' (splitChar_ne_nil _ _)
      | cons g gs => exact ⟨g, gs, rfl⟩
    have hlen := two_le_splitChar_length sep _ hmem
    rw [hs] at hlen
    have hgs : gs ≠ [] := by
      cases gs with
      | nil => simp at hlen
      | cons _ _ => simp
    have hIH := ih r h
    rw [hs, List.getLastD_cons] at hIH
    have hsc : splitChar sep ((c :: l) ++ sep :: r)
        = if c = sep then ([] : List Char) :: g :: gs else (c :: g) :: gs := by
      show splitChar sep (c :: (l ++ sep :: r)) = _
      simp only [splitChar, hs]
    rw [hsc]
    by_cases hc : c = sep
    · rw [if_pos hc, List.getLastD_cons, List.getLastD_cons]
      exact hIH
    · rw [if_neg hc, List.getLastD_cons]
      exact (getLastD_irrel gs _ _ hgs).trans hIH

/-- C10 amended: the predicate is determined by the characters after the
last `.` — except that for a path with no `.` at all, JS
`split('.').pop()` yields the *whole path*, which is then compared against
the extension list; so a dot-less path such as `png` is itself treated as
an image.  With a dot present the claim's description is exact. -/
theorem c10_extension_rule (pre post s : String) :
    ((∀ a ∈ post.data, a ≠ '.') →
      isImageFile (pre ++ "." ++ post) =
        SUPPORTED_IMAGE_EXTENSIONS.contains (lowerStr post))
    ∧ ((∀ a ∈ s.data, a ≠ '.') →
      isImageFile s = SUPPORTED_IMAGE_EXTENSIONS.contains (lowerStr s))
    ∧ isImageFile "IMG.PNG" = true
    ∧ isImageFile "image.tiff" = false
    ∧ isImageFile "noext" = false := by
  refine ⟨?_, ?_, by decide, by decide, by decide⟩
  · intro h
    have hdata : (pre ++ "." ++ post).data = pre.data ++ '.' :: post.data := by
      simp [String.data_append]
    have h1 : (splitChar '.' (pre ++ "." ++ post).data).getLastD [] = post.data := by
      rw [hdata]
      exact getLastD_splitChar_append '.' pre.data post.data h
    simp only [isImageFile, h1]
    have h2 : (⟨post.data⟩ : String) = post := rfl
    rw [h2]
    by_cases he : lowerStr post = ""
    · rw [if_pos he, he]; decide
    · rw [if_neg he]
  · intro h
    have h1 : (splitChar '.' s.data).getLastD [] = s.data := by
      rw [splitChar_of_all_ne '.' s.data h]
      rfl
    simp only [isImageFile, h1]
    have h2 : (⟨s.data⟩ : String) = s := rfl
    rw [h2]
    by_cases he : lowerStr s = ""
    · rw [if_pos he, he]; decide
    · rw [if_neg he]

/-- C10 counterexample: `png` contains no `.` yet `isImageFile` accepts it,
against the claim's "returns false for paths with no `.`". -/
theorem c10_no_dot_counterexample :
    isImageFile "png" = true ∧ (∀ a ∈ "png".data, a ≠ '.') :=
  ⟨by decide, by decide⟩

/-- C10 witness: the amended rule evaluated at `photo.JPG` and at the
dot-less path `png`. -/
theorem c10_extension_rule_witness :
    isImageFile ("photo" ++ "." ++ "JPG") =
      SUPPORTED_IMAGE_EXTENSIONS.contains (lowerStr "JPG")
    ∧ isImageFile "png" = SUPPORTED_IMAGE_EXTENSIONS.contains (lowerStr "png") :=
  ⟨(c10_extension_rule "photo" "JPG" "png").1 (by decide),
   (c10_extension_rule "photo" "JPG" "png").2.1 (by decide)⟩

/-! Section: Claim C1 — orphan scan reconciles the orphan set -/

theorem moveOrphans_frame : ∀ (ps : List String) (s : OrphanSt),
    (moveOrphansToFolder s ps).orphanImages = s.orphanImages
    ∧ (moveOrphansToFolder s ps).resolvedLinks = s.resolvedLinks := by
  intro ps
  induction ps with
  | nil => intro s; exact ⟨rfl, rfl⟩
  | cons p ps ih =>
    intro s
    simp only [moveOrphansToFolder]
    by_cases h1 : s.files.contains p = true
    · rw [if_pos h1]
      by_cases h2 : s.renameFails p = true
      · rw [if_pos h2]; exact ih s
      · rw [if_neg h2]; exact ih _
    · rw [if_neg h1]; exact ih s

theorem orphans_not_linked (files : List String)
    (links : List (String × List String)) (q : String)
    (hq : q ∈ (files.filter isImageFile).filter
      (fun p => !((getAllReferencedImages links).contains p))) :
    notesLinkTo links q = false := by
  rw [List.mem_filter] at hq
  obtain ⟨hq1, hq2⟩ := hq
  rw [List.mem_filter] at hq1
  obtain ⟨-, himg⟩ := hq1
  by_contra hlink
  have hlink' : notesLinkTo links q = true := by
    cases h : notesLinkTo links q
    · exact absurd h hlink
    · rfl
  simp only [notesLinkTo, List.any_eq_true] at hlink'
  obtain ⟨e, he, hce⟩ := hlink'
  have hmem : q ∈ getAllReferencedImages links := by
    simp only [getAllReferencedImages, List.mem_filter, List.mem_flatMap]
    exact ⟨⟨e, he, by simpa using hce⟩, himg⟩
  simp only [Bool.not_eq_true'] at hq2
  rw [← Bool.not_eq_true] at hq2
  exact hq2 (by simpa using hmem)

theorem isOrphan_agree (st : OrphanSt) (p : String)
    (h : ∀ q ∈ st.orphanImages, notesLinkTo st.resolvedLinks q = false) :
    (isOrphan st p).1 = !(notesLinkTo st.resolvedLinks p) := by
  unfold isOrphan
  by_cases hc : st.orphanImages.contains p = true
  · rw [if_pos hc]
    have hp : p ∈ st.orphanImages := by simpa using hc
    rw [h p hp]
    rfl
  · rw [if_neg hc]
    by_cases hl : notesLinkTo st.resolvedLinks p = true
    · rw [if_pos hl, hl]
      rfl
    · have hl' : notesLinkTo st.resolvedLinks p = false := by
        cases hx : notesLinkTo st.resolvedLinks p
        · rfl
        · exact absurd hx hl
      rw [if_neg hl, hl']
      rfl

/-- C1: after any completed `scanOrphanImages` — in every vault state, and
in particular also when `orphanHandling = moveToFolder` relocates the
discovered orphans — the orphan set has been replaced wholesale by exactly
the images with no entry in the resolved-links map, the resolved-links map
is untouched, and `isOrphan p` agrees with that map: it returns true iff no
note links to `p`. -/
theorem c1_scan_reconciles_orphans (s : OrphanSt) (p : String) :
    (scanOrphanImages s).2.resolvedLinks = s.resolvedLinks
    ∧ (scanOrphanImages s).2.orphanImages =
        (s.files.filter isImageFile).filter
          (fun q => !((getAllReferencedImages s.resolvedLinks).contains q))
    ∧ (scanOrphanImages s).1 =
        (s.files.filter isImageFile).filter
          (fun q => !((getAllReferencedImages s.resolvedLinks).contains q))
    ∧ (isOrphan (scanOrphanImages s).2 p).1
        = !(notesLinkTo (scanOrphanImages s).2.resolvedLinks p) := by
  have hfields : (scanOrphanImages s).2.resolvedLinks = s.resolvedLinks
      ∧ (scanOrphanImages s).2.orphanImages =
          (s.files.filter isImageFile).filter
            (fun q => !((getAllReferencedImages s.resolvedLinks).contains q))
      ∧ (scanOrphanImages s).1 =
          (s.files.filter isImageFile).filter
            (fun q => !((getAllReferencedImages s.resolvedLinks).contains q)) := by
    unfold scanOrphanImages
    dsimp only
    split
    · exact ⟨(moveOrphans_frame _ _).2, (moveOrphans_frame _ _).1, rfl⟩
    · exact ⟨rfl, rfl, rfl⟩
  obtain ⟨h1, h2, h3⟩ := hfields
  refine ⟨h1, h2, h3, ?_⟩
  apply isOrphan_agree
  intro q hq
  rw [h2] at hq
  rw [h1]
  exact orphans_not_linked s.files s.resolvedLinks q hq

/-! Section: Claim C7 — best-effort orphan deletion -/

/-- Characterization of the deletion loop: the outcome depends only on the
file tree and the delete oracle. -/
theorem deleteOrphanImages_spec (s : OrphanSt) (ps : List String)
    (hps : ps.Nodup) (hf : s.files.Nodup) :
    deleteOrphanImages s ps =
      ((ps.filter (fun p => s.files.contains p && !(s.deleteFails p))).length,
       { s with
           files := s.files.filter (fun q =>
             !((ps.filter (fun p => s.files.contains p && !(s.deleteFails p))).contains q)),
           orphanImages := s.orphanImages.filter (fun q =>
             !((ps.filter (fun p => s.files.contains p && !(s.deleteFails p))).contains q)) }) := by
  induction ps generalizing s with
  | nil =>
    simp only [deleteOrphanImages, List.filter_nil, List.length_nil]
    refine Prod.ext rfl ?_
    show s = _
    have h1 : s.files.filter (fun q => !(([] : List String).contains q)) = s.files := by
      simp
    have h2 : s.orphanImages.filter (fun q => !(([] : List String).contains q))
        = s.orphanImages := by simp
    rw [h1, h2]
  | cons p ps ih =>
    have hp : p ∉ ps := (List.nodup_cons.mp hps).1
    have hps' : ps.Nodup := (List.nodup_cons.mp hps).2
    simp only [deleteOrphanImages]
    by_cases h1 : s.files.contains p = true
    · rw [if_pos h1]
      by_cases h2 : s.deleteFails p = true
      · rw [if_pos h2]
        rw [ih s hps' hf]
        have hpredf : (s.files.contains p && !(s.deleteFails p)) = false := by
          rw [h2]
          simp
        rw [@List.filter_cons_of_neg String
          (fun q => s.files.contains q && !(s.deleteFails q)) p ps
          (fun hx => Bool.noConfusion (hpredf.symm.trans hx))]
      · rw [if_neg h2]
        have h2' : s.deleteFails p = false := by
          cases hx : s.deleteFails p
          · rfl
          · exact absurd hx h2
        set s1 : OrphanSt :=
          { s with files := s.files.erase p,
                   orphanImages := s.orphanImages.filter (fun q => q ≠ p) } with hs1
        have hf1 : s1.files.Nodup := hf.erase p
        rw [ih s1 hps' hf1]
        have hDeq : ps.filter (fun q => s1.files.contains q && !(s1.deleteFails q))
            = ps.filter (fun q => s.files.contains q && !(s.deleteFails q)) := by
          apply List.filter_congr
          intro q hq
          have hqp : q ≠ p := fun h => hp (h ▸ hq)
          have : s1.files.contains q = s.files.contains q := by
            simp only [hs1]
            by_cases hm : q ∈ s.files
            · have : q ∈ s.files.erase p := (List.mem_erase_of_ne hqp).mpr hm
              simp [hm, this]
            · have : q ∉ s.files.erase p := fun hin =>
                hm (List.mem_of_mem_erase hin)
              simp [hm, this]
          rw [this]
        rw [hDeq]
        have hpredt : (s.files.contains p && !(s.deleteFails p)) = true := by
          rw [h1, h2']
          rfl
        rw [@List.filter_cons_of_pos String
          (fun q => s.files.contains q && !(s.deleteFails q)) p ps hpredt]
        refine Prod.ext ?_ ?_
        · simp [List.length_cons]
        · show ({ s1 with
              files := s1.files.filter (fun q =>
                !((ps.filter (fun p => s.files.contains p && !(s.deleteFails p))).contains q)),
              orphanImages := s1.orphanImages.filter (fun q =>
                !((ps.filter (fun p => s.files.contains p && !(s.deleteFails p))).contains q)) }
            : OrphanSt) = _
          have hfe : s1.files.filter (fun q =>
              !((ps.filter (fun p => s.files.contains p && !(s.deleteFails p))).contains q))
              = s.files.filter (fun q =>
              !(((p :: ps.filter (fun p => s.files.contains p && !(s.deleteFails p)))).contains q)) := by
            simp only [hs1]
            rw [hf.erase_eq_filter p, List.filter_filter]
            apply List.filter_congr
            intro q _
            by_cases hqp : q = p
            · simp [hqp]
            · simp [hqp, bne_iff_ne, Ne.symm]
          have hoe : s1.orphanImages.filter (fun q =>
              !((ps.filter (fun p => s.files.contains p && !(s.deleteFails p))).contains q))
              = s.orphanImages.filter (fun q =>
              !(((p :: ps.filter (fun p => s.files.contains p && !(s.deleteFails p)))).contains q)) := by
            simp only [hs1]
            rw [List.filter_filter]
            apply List.filter_congr
            intro q _
            by_cases hqp : q = p
            · simp [hqp]
            · simp [hqp, Ne.symm]
          rw [hfe, hoe]
    · rw [if_neg h1]
      rw [ih s hps' hf]
      have h1' : s.files.contains p = false := by
        cases hx : s.files.contains p
        · rfl
        · exact absurd hx h1
      have hpredf : (s.files.contains p && !(s.deleteFails p)) = false := by
        rw [h1']
        simp
      rw [@List.filter_cons_of_neg String
        (fun q => s.files.contains q && !(s.deleteFails q)) p ps
        (fun hx => Bool.noConfusion (hpredf.symm.trans hx))]

/-- C7: `deleteOrphanImages` deletes exactly the input paths that resolve
to existing files and whose delete does not throw; the returned count is
the number of those paths, exactly they disappear from the file tree and
from the orphan set (paths that did not exist leave the orphan set
unchanged), and orphan status is not re-checked at delete time: the result
is the same under any resolved-links map. -/
theorem c7_delete_orphans (s : OrphanSt) (ps : List String)
    (hps : ps.Nodup) (hf : s.files.Nodup) :
    deleteOrphanImages s ps =
      ((ps.filter (fun p => s.files.contains p && !(s.deleteFails p))).length,
       { s with
           files := s.files.filter (fun q =>
             !((ps.filter (fun p => s.files.contains p && !(s.deleteFails p))).contains q)),
           orphanImages := s.orphanImages.filter (fun q =>
             !((ps.filter (fun p => s.files.contains p && !(s.deleteFails p))).contains q)) })
    ∧ ∀ links : List (String × List String),
        (deleteOrphanImages { s with resolvedLinks := links } ps).1
          = (deleteOrphanImages s ps).1 := by
  refine ⟨deleteOrphanImages_spec s ps hps hf, fun links => ?_⟩
  rw [deleteOrphanImages_spec s ps hps hf,
    deleteOrphanImages_spec { s with resolvedLinks := links } ps hps hf]

/-- C7 witness: three paths, one of which does not exist on disk — exactly
the two existing ones are deleted and counted, and the orphan set keeps
only the entry that was not among the inputs. -/
theorem c7_delete_orphans_witness :
    (deleteOrphanImages c7state ["a.png", "b.png", "c.png"] =
      (((["a.png", "b.png", "c.png"].filter
          (fun p => c7state.files.contains p && !(c7state.deleteFails p)))).length,
       { c7state with
           files := c7state.files.filter (fun q =>
             !(((["a.png", "b.png", "c.png"].filter
               (fun p => c7state.files.contains p && !(c7state.deleteFails p)))).contains q)),
           orphanImages := c7state.orphanImages.filter (fun q =>
             !(((["a.png", "b.png", "c.png"].filter
               (fun p => c7state.files.contains p && !(c7state.deleteFails p)))).contains q)) }))
    ∧ ∀ links : List (String × List String),
        (deleteOrphanImages { c7state with resolvedLinks := links }
          ["a.png", "b.png", "c.png"]).1
          = (deleteOrphanImages c7state ["a.png", "b.png", "c.png"]).1 :=
  c7_delete_orphans c7state ["a.png", "b.png", "c.png"] (by decide) (by decide)

/-! Section: Claim C4 — mtime staleness guard -/

/-- C4 amended: `calculateHash` never trusts an entry whose stored mtime
differs from the file's current mtime — it recomputes the digest from the
current bytes and refreshes the entry.  (`findDuplicate`, by contrast,
compares cached digests without any mtime check; see the counterexample.) -/
theorem c4_calculate_hash_stale_mtime (s : HashSt) (f : VFile) (e : HashEntry)
    (hc : cacheLookup s.cache f.path = some e) (hm : e.mtime ≠ f.mtime) :
    calculateHash s f =
      (s.hashFn f.content,
       { s with cache := cacheSet s.cache f.path ⟨s.hashFn f.content, f.mtime⟩ }) := by
  unfold calculateHash
  rw [hc]
  dsimp only
  rw [if_neg hm]

/-- C4 witness: the stale-mtime recomputation at a concrete state. -/
theorem c4_calculate_hash_stale_mtime_witness :
    calculateHash c4state ⟨"a.png", 2, [1]⟩ =
      (c4state.hashFn [1],
       { c4state with
           cache := cacheSet c4state.cache "a.png" ⟨c4state.hashFn [1], 2⟩ }) :=
  c4_calculate_hash_stale_mtime c4state ⟨"a.png", 2, [1]⟩ ⟨"hX", 1⟩
    (by decide) (by decide)

/-- C4 counterexample: `findDuplicate`'s cache scan has no mtime check, so
a stale cached digest *is* used: file `a.png` was modified (mtime 2, bytes
`[1]`, digest `hY`) after being cached with digest `hX` at mtime 1, yet a
probe whose digest is `hX` is answered with `a.png` straight from the stale
entry, without recomputation — the entry and its mtime mismatch survive. -/
theorem c4_find_duplicate_stale_counterexample :
    (findDuplicate c4state [0]).1 = some "a.png"
    ∧ c4state.hashFn [1] = "hY"
    ∧ c4state.hashFn [0] = "hX"
    ∧ cacheLookup c4state.cache "a.png" = some ⟨"hX", 1⟩
    ∧ (findDuplicate c4state [0]).2.cache = [("a.png", ⟨"hX", 1⟩)] := by
  refine ⟨by decide, by decide, by decide, by decide, by decide⟩

/-! Section: Claim C6 — findDuplicate search structure -/

theorem find?_map_keep (c : List (String × HashEntry)) (p : String)
    (e : HashEntry) (q : String) (hq : q ≠ p) :
    ((c.map (fun x => if x.1 = p then (p, e) else x)).find? (fun x => x.1 == q))
      = c.find? (fun x => x.1 == q) := by
  induction c with
  | nil => rfl
  | cons x xs ih =>
    simp only [List.map_cons]
    by_cases hx : x.1 = p
    · rw [if_pos hx]
      have h1 : (((p, e) : String × HashEntry).1 == q) = false :=
        beq_eq_false_iff_ne.mpr (Ne.symm hq)
      have h2 : (x.1 == q) = false := by
        rw [hx]
        exact beq_eq_false_iff_ne.mpr (Ne.symm hq)
      simp only [List.find?_cons, h1, h2]
      exact ih
    · rw [if_neg hx]
      cases hb : (x.1 == q) with
      | true => simp only [List.find?_cons, hb]
      | false =>
        simp only [List.find?_cons, hb]
        exact ih

theorem cacheLookup_set_ne (c : List (String × HashEntry)) (p : String)
    (e : HashEntry) (q : String) (hq : q ≠ p) :
    cacheLookup (cacheSet c p e) q = cacheLookup c q := by
  unfold cacheSet cacheLookup
  by_cases h : c.any (fun x => x.1 == p) = true
  · rw [if_pos h, find?_map_keep c p e q hq]
  · rw [if_neg h, List.find?_append]
    have h1 : (((p, e) : String × HashEntry).1 == q) = false :=
      beq_eq_false_iff_ne.mpr (Ne.symm hq)
    cases hf : c.find? (fun x => x.1 == q) with
    | some r => simp [hf]
    | none => simp [hf, List.find?_cons, h1]

theorem calculateHash_of_uncached (s : HashSt) (f : VFile)
    (h : cacheLookup s.cache f.path = none) :
    calculateHash s f =
      (s.hashFn f.content,
       { s with cache := cacheSet s.cache f.path ⟨s.hashFn f.content, f.mtime⟩ }) := by
  unfold calculateHash
  rw [h]

theorem fdVaultScan_find (newHash : String) :
    ∀ (fs : List VFile) (s : HashSt),
      (∀ f ∈ fs, cacheLookup s.cache f.path = none) →
      (fs.map VFile.path).Nodup →
      (fdVaultScan newHash fs s).1
        = (fs.find? (fun f => s.hashFn f.content == newHash)).map VFile.path := by
  intro fs
  induction fs with
  | nil => intro s _ _; rfl
  | cons f fs ih =>
    intro s hnc hnd
    have hf : cacheLookup s.cache f.path = none := hnc f (by simp)
    have hch := calculateHash_of_uncached s f hf
    simp only [fdVaultScan, hf, Option.isNone_none, if_pos, hch]
    by_cases hh : s.hashFn f.content = newHash
    · rw [if_pos hh, List.find?_cons_of_pos _ (by simpa using hh)]
      rfl
    · rw [if_neg hh, List.find?_cons_of_neg _ (by simpa using hh)]
      have hpne : f.path ∉ fs.map VFile.path := (List.nodup_cons.mp hnd).1
      have hrec := ih
        { s with cache := cacheSet s.cache f.path ⟨s.hashFn f.content, f.mtime⟩ }
        (fun g hg => by
          have hgp : g.path ≠ f.path := fun hx =>
            hpne (hx ▸ List.mem_map_of_mem VFile.path hg)
          rw [cacheLookup_set_ne _ _ _ _ hgp]
          exact hnc g (List.mem_cons_of_mem f hg))
        (List.nodup_cons.mp hnd).2
      exact hrec

theorem fdScanCache_del (files : List VFile) (nh : String) :
    ∀ (c : List (String × HashEntry)) (p : String) (e : HashEntry),
      (fdScanCache files nh c).1 = none →
      (p, e) ∈ c → e.hash = nh →
      files.any (fun f => f.path == p) = false →
      p ∈ (fdScanCache files nh c).2 := by
  intro c
  induction c with
  | nil => intro p e _ hmem; cases hmem
  | cons x xs ih =>
    intro p e hnone hmem hhash hmiss
    obtain ⟨q, eq'⟩ := x
    simp only [fdScanCache] at hnone ⊢
    by_cases h1 : eq'.hash = nh
    · rw [if_pos h1] at hnone ⊢
      by_cases h2 : files.any (fun f => f.path == q) = true
      · rw [if_pos h2] at hnone
        simp at hnone
      · rw [if_neg h2] at hnone ⊢
        rcases List.mem_cons.mp hmem with heq | hmem'
        · have hpq : p = q := (Prod.mk.injEq _ _ _ _ ▸ heq).1
          exact hpq ▸ List.mem_cons_self _ _
        · exact List.mem_cons_of_mem _ (ih p e hnone hmem' hhash hmiss)
    · rw [if_neg h1] at hnone ⊢
      rcases List.mem_cons.mp hmem with heq | hmem'
      · obtain ⟨hpq, heq'⟩ := Prod.mk.injEq _ _ _ _ ▸ heq
        exact absurd (heq' ▸ hhash) h1
      · exact ih p e hnone hmem' hhash hmiss

theorem cacheSet_keys (c : List (String × HashEntry)) (p : String)
    (e : HashEntry) (q : String)
    (h : q ∈ (cacheSet c p e).map Prod.fst) :
    q ∈ c.map Prod.fst ∨ q = p := by
  unfold cacheSet at h
  by_cases hc : c.any (fun x => x.1 == p) = true
  · rw [if_pos hc] at h
    rw [List.map_map] at h
    rcases List.mem_map.mp h with ⟨x, hx, hxq⟩
    by_cases hxp : x.1 = p
    · right
      simpa [hxp] using hxq.symm
    · left
      simp only [Function.comp, hxp, if_neg] at hxq
      exact hxq ▸ List.mem_map_of_mem Prod.fst hx
  · rw [if_neg hc, List.map_append] at h
    rcases List.mem_append.mp h with h' | h'
    · exact Or.inl h'
    · right
      simpa using h'

theorem calculateHash_keys (s : HashSt) (f : VFile) (q : String)
    (h : q ∈ ((calculateHash s f).2).cache.map Prod.fst) :
    q ∈ s.cache.map Prod.fst ∨ q = f.path := by
  unfold calculateHash at h
  cases hc : cacheLookup s.cache f.path with
  | some cached =>
    rw [hc] at h
    dsimp only at h
    by_cases hm : cached.mtime = f.mtime
    · rw [if_pos hm] at h
      exact Or.inl h
    · rw [if_neg hm] at h
      exact cacheSet_keys _ _ _ _ h
  | none =>
    rw [hc] at h
    dsimp only at h
    exact cacheSet_keys _ _ _ _ h

theorem fdVaultScan_keys (nh : String) :
    ∀ (fs : List VFile) (s : HashSt) (q : String),
      q ∈ ((fdVaultScan nh fs s).2).cache.map Prod.fst →
      q ∈ s.cache.map Prod.fst ∨ q ∈ fs.map VFile.path := by
  intro fs
  induction fs with
  | nil => intro s q h; exact Or.inl h
  | cons f fs ih =>
    intro s q h
    simp only [fdVaultScan] at h
    by_cases hc : (cacheLookup s.cache f.path).isNone = true
    · rw [if_pos hc] at h
      by_cases hh : (calculateHash s f).1 = nh
      · rw [if_pos hh] at h
        rcases calculateHash_keys s f q h with h' | h'
        · exact Or.inl h'
        · exact Or.inr (by simp [h'])
      · rw [if_neg hh] at h
        rcases ih _ q h with h' | h'
        · rcases calculateHash_keys s f q h' with h'' | h''
          · exact Or.inl h''
          · exact Or.inr (by simp [h''])
        · exact Or.inr (List.mem_cons_of_mem _ h')
    · rw [if_neg hc] at h
      rcases ih s q h with h' | h'
      · exact Or.inl h'
      · exact Or.inr (List.mem_cons_of_mem _ h')

theorem findDuplicate_eq (s : HashSt) (data : List Nat) :
    findDuplicate s data =
      (match (fdScanCache s.files (s.hashFn data) s.cache).1 with
       | some p => (some p,
           { s with
               cache := s.cache.filter (fun q =>
                 !((fdScanCache s.files (s.hashFn data) s.cache).2.contains q.1)) })
       | none => fdVaultScan (s.hashFn data)
           (s.files.filter (fun f => isImageFile f.path))
           { s with
               cache := s.cache.filter (fun q =>
                 !((fdScanCache s.files (s.hashFn data) s.cache).2.contains q.1)) }) :=
  rfl

/-- C6 amended: `findDuplicate` checks the cache first and then hashes the
not-yet-cached images in vault order, so with an empty cache it still finds
a byte-identical existing image — it returns the first image file whose
digest equals the probe's digest.  During the search, a cache entry is
purged when its digest matches the probe and its path no longer resolves to
an existing file (an entry whose digest does not match is left in place
even if its file is gone; see the counterexample). -/
theorem c6_find_duplicate_search (s : HashSt) (data : List Nat) (p : String)
    (e : HashEntry) :
    (s.cache = [] → (s.files.map VFile.path).Nodup →
      (findDuplicate s data).1 =
        ((s.files.filter (fun f => isImageFile f.path)).find?
          (fun f => s.hashFn f.content == s.hashFn data)).map VFile.path)
    ∧ ((findDuplicate s data).1 = none →
      (p, e) ∈ s.cache → e.hash = s.hashFn data →
      s.files.any (fun f => f.path == p) = false →
      ¬ p ∈ ((findDuplicate s data).2).cache.map Prod.fst) := by
  constructor
  · intro hc hnd
    have hnodup : ((s.files.filter (fun f => isImageFile f.path)).map VFile.path).Nodup :=
      List.Nodup.sublist (List.Sublist.map VFile.path (List.filter_sublist s.files)) hnd
    rw [findDuplicate_eq, hc]
    simp only [fdScanCache]
    refine fdVaultScan_find (s.hashFn data) _ _ (fun f _ => ?_) hnodup
    rfl
  · intro hnone hmem hhash hmiss
    cases hscan : (fdScanCache s.files (s.hashFn data) s.cache).1 with
    | some r =>
      rw [findDuplicate_eq, hscan] at hnone
      simp at hnone
    | none =>
      have hdel : p ∈ (fdScanCache s.files (s.hashFn data) s.cache).2 :=
        fdScanCache_del s.files (s.hashFn data) s.cache p e hscan hmem hhash hmiss
      intro hfin
      rw [findDuplicate_eq, hscan] at hfin
      rcases fdVaultScan_keys _ _ _ _ hfin with h' | h'
      · rcases List.mem_map.mp h' with ⟨x, hx, hxp⟩
        have hxf := (List.mem_filter.mp hx).2
        rw [hxp] at hxf
        have hcont : (fdScanCache s.files (s.hashFn data) s.cache).2.contains p = true := by
          simpa using hdel
        rw [hcont] at hxf
        simp at hxf
      · rcases List.mem_map.mp h' with ⟨f, hf, hfp⟩
        have hf' : f ∈ s.files := (List.mem_filter.mp hf).1
        have hany : s.files.any (fun g => g.path == p) = true :=
          List.any_eq_true.mpr ⟨f, hf', by simp [hfp]⟩
        rw [hany] at hmiss
        exact Bool.noConfusion hmiss

/-- C6 witness: the empty-cache full-scan fallback finds the first
byte-identical image, and a matching-digest entry for a vanished file is
purged. -/
theorem c6_find_duplicate_search_witness :
    (findDuplicate c6scan [7]).1 =
      ((c6scan.files.filter (fun f => isImageFile f.path)).find?
        (fun f => c6scan.hashFn f.content == c6scan.hashFn [7])).map VFile.path
    ∧ ¬ "gone.png" ∈ ((findDuplicate c6stale []).2).cache.map Prod.fst :=
  ⟨(c6_find_duplicate_search c6scan [7] "q" ⟨"q", 0⟩).1 rfl (by decide),
   (c6_find_duplicate_search c6stale [] "gone.png" ⟨"h0", 0⟩).2
     (by decide) (by decide) (by decide) (by decide)⟩

/-- C6 counterexample: the claim "any cache entry whose path no longer
resolves to an existing file is deleted from the cache during the search"
fails — the code only deletes entries whose digest matches the probe, so
`ghost.png` (digest `h1`, file gone) survives a search for digest `h2`. -/
theorem c6_stale_entry_counterexample :
    (findDuplicate c6ghost [0]).1 = none
    ∧ (findDuplicate c6ghost [0]).2.cache = [("ghost.png", ⟨"h1", 0⟩)]
    ∧ c6ghost.files.any (fun f => f.path == "ghost.png") = false := by
  refine ⟨by decide, by decide, by decide⟩

/-! Section: Claim C3 — failure handling in updateImageReferences -/

theorem lookupNote_set_ne (s : LinkSt) (q c p : String) (h : p ≠ q) :
    lookupNote { s with notes := setNote s.notes q c } p = lookupNote s p := by
  unfold lookupNote setNote
  suffices hgen : ∀ (ns : List (String × String)),
      ((ns.map (fun e => if e.1 = q then (q, c) else e)).find?
        (fun e => e.1 == p)).map Prod.snd
        = (ns.find? (fun e => e.1 == p)).map Prod.snd by
    exact hgen s.notes
  intro ns
  induction ns with
  | nil => rfl
  | cons x xs ih =>
    simp only [List.map_cons]
    by_cases hx : x.1 = q
    · rw [if_pos hx]
      have h1 : (((q, c) : String × String).1 == p) = false :=
        beq_eq_false_iff_ne.mpr (Ne.symm h)
      have h2 : (x.1 == p) = false := by
        rw [hx]
        exact beq_eq_false_iff_ne.mpr (Ne.symm h)
      simp only [List.find?_cons, h1, h2]
      exact ih
    · rw [if_neg hx]
      cases hb : (x.1 == p) with
      | true => simp only [List.find?_cons, hb]
      | false =>
        simp only [List.find?_cons, hb]
        exact ih

theorem uirLoop_spec (oldPath newPath : String) :
    ∀ (L : List String) (n : Nat) (s sz : LinkSt),
      (∀ q, s.readFails q = false) →
      (∀ q, s.writeFails q = false) →
      s.resolve = sz.resolve →
      L.Nodup →
      (∀ m ∈ L, lookupNote s m = lookupNote sz m) →
      (uirLoop oldPath newPath L n s).1
          = Except.ok (n + L.countP (noteWouldChange sz oldPath newPath))
      ∧ (uirLoop oldPath newPath L n s).2.readFails = s.readFails
      ∧ (uirLoop oldPath newPath L n s).2.writeFails = s.writeFails
      ∧ (uirLoop oldPath newPath L n s).2.resolve = s.resolve
      ∧ (uirLoop oldPath newPath L n s).2.resolvedLinks = s.resolvedLinks := by
  intro L
  induction L with
  | nil =>
    intro n s sz _ _ _ _ _
    exact ⟨by simp [uirLoop], rfl, rfl, rfl, rfl⟩
  | cons m L ih =>
    intro n s sz hr hw hres hnd hlk
    have hm := hlk m (by simp)
    have hnd' : L.Nodup := (List.nodup_cons.mp hnd).2
    have hmL : m ∉ L := (List.nodup_cons.mp hnd).1
    have hpredeq : noteWouldChange sz oldPath newPath m
        = noteWouldChange s oldPath newPath m := by
      unfold noteWouldChange
      rw [← hm, ← hres]
    have hrf : s.readFails m = false := hr m
    have hwf : s.writeFails m = false := hw m
    by_cases hsome : (lookupNote s m).isSome = true
    · by_cases hchg : updateNoteContent s.resolve m oldPath newPath
          ((lookupNote s m).getD "") = (lookupNote s m).getD ""
      · have hup : updateLinksInNote s m oldPath newPath = (Except.ok false, s) := by
          unfold updateLinksInNote
          rw [if_neg (by simp [hrf])]
          dsimp only
          rw [if_neg (not_not_intro hchg)]
        have hpred : noteWouldChange sz oldPath newPath m = false := by
          rw [hpredeq]
          unfold noteWouldChange
          have hb : (updateNoteContent s.resolve m oldPath newPath
              ((lookupNote s m).getD "") != ((lookupNote s m).getD "")) = false := by
            rw [hchg]
            exact bne_self_eq_false _
          rw [hb, Bool.and_false]
        have hcnt : (m :: L).countP (noteWouldChange sz oldPath newPath)
            = L.countP (noteWouldChange sz oldPath newPath) := by
          rw [List.countP_cons, hpred]
          simp
        simp only [uirLoop, if_pos hsome, hup]
        rw [hcnt]
        exact ih n s sz hr hw hres hnd'
          (fun m' hm' => hlk m' (List.mem_cons_of_mem _ hm'))
      · have hup : updateLinksInNote s m oldPath newPath =
            (Except.ok true,
             { s with
                 notes := setNote s.notes m
                   (updateNoteContent s.resolve m oldPath newPath
                     ((lookupNote s m).getD "")) }) := by
          unfold updateLinksInNote
          rw [if_neg (by simp [hrf])]
          dsimp only
          rw [if_pos hchg, if_neg (by simp [hwf])]
        have hpred : noteWouldChange sz oldPath newPath m = true := by
          rw [hpredeq]
          unfold noteWouldChange
          have hb : (updateNoteContent s.resolve m oldPath newPath
              ((lookupNote s m).getD "") != ((lookupNote s m).getD "")) = true :=
            bne_iff_ne.mpr hchg
          rw [hb, hsome, Bool.true_and]
        have hcnt : (m :: L).countP (noteWouldChange sz oldPath newPath)
            = L.countP (noteWouldChange sz oldPath newPath) + 1 := by
          rw [List.countP_cons, hpred]
          simp
        have hrec := ih (n + 1)
          { s with
              notes := setNote s.notes m
                (updateNoteContent s.resolve m oldPath newPath
                  ((lookupNote s m).getD "")) }
          sz hr hw hres hnd'
          (fun m' hm' =>
            (lookupNote_set_ne s m _ m' (fun hx => hmL (hx ▸ hm'))).trans
              (hlk m' (List.mem_cons_of_mem _ hm')))
        obtain ⟨hc1, hc2, hc3, hc4, hc5⟩ := hrec
        simp only [uirLoop, if_pos hsome, hup, if_true]
        refine ⟨?_, hc2, hc3, hc4, hc5⟩
        rw [hc1, hcnt]
        congr 1
        omega
    · have hsome' : (lookupNote s m).isSome = false := by
        cases hx : (lookupNote s m).isSome
        · rfl
        · exact absurd hx hsome
      have hpred : noteWouldChange sz oldPath newPath m = false := by
        rw [hpredeq]
        unfold noteWouldChange
        rw [hsome', Bool.false_and]
      have hcnt : (m :: L).countP (noteWouldChange sz oldPath newPath)
          = L.countP (noteWouldChange sz oldPath newPath) := by
        rw [List.countP_cons, hpred]
        simp
      simp only [uirLoop, if_neg hsome]
      rw [hcnt]
      exact ih n s sz hr hw hres hnd'
        (fun m' hm' => hlk m' (List.mem_cons_of_mem _ hm'))

theorem updateImageReferences_eq (s : LinkSt) (oldPath newPath : String) :
    updateImageReferences s oldPath newPath =
      uirLoop oldPath newPath
        (findNotesReferencingImage s.resolvedLinks oldPath) 0 s :=
  rfl

theorem findNotesReferencing_nodup (links : List (String × List String))
    (imagePath : String) (hnd : (links.map Prod.fst).Nodup) :
    (findNotesReferencingImage links imagePath).Nodup :=
  List.Nodup.sublist
    (List.Sublist.map Prod.fst (List.filter_sublist links)) hnd

theorem burLoop_ok :
    ∀ (updates : List (String × String)) (total : Nat) (s : LinkSt),
      (∀ q, s.readFails q = false) →
      (∀ q, s.writeFails q = false) →
      (s.resolvedLinks.map Prod.fst).Nodup →
      ∃ t s', burLoop updates total s = (Except.ok t, s') := by
  intro updates
  induction updates with
  | nil => intro total s _ _ _; exact ⟨total, s, rfl⟩
  | cons u rest ih =>
    obtain ⟨o, nw⟩ := u
    intro total s hr hw hnd
    obtain ⟨h1, hfr, hfw, hfres, hfl⟩ :=
      uirLoop_spec o nw (findNotesReferencingImage s.resolvedLinks o) 0 s s
        hr hw rfl (findNotesReferencing_nodup _ _ hnd) (fun m _ => rfl)
    rcases hu : updateImageReferences s o nw with ⟨res, s1⟩
    have hu' : uirLoop o nw (findNotesReferencingImage s.resolvedLinks o) 0 s
        = (res, s1) := (updateImageReferences_eq s o nw) ▸ hu
    rw [hu'] at h1 hfr hfw hfres hfl
    obtain ⟨t, s'', hb⟩ := ih (total +
        ((findNotesReferencingImage s.resolvedLinks o).countP
          (noteWouldChange s o nw))) s1
      (fun q => (congrFun hfr q).trans (hr q))
      (fun q => (congrFun hfw q).trans (hw q))
      (by rw [hfl]; exact hnd)
    refine ⟨t, s'', ?_⟩
    simp only [burLoop, hu]
    have hres : res = Except.ok
        (0 + (findNotesReferencingImage s.resolvedLinks o).countP
          (noteWouldChange s o nw)) := h1
    rw [hres]
    simpa using hb

/-- C3 counterexample: there is no per-note `try`/`catch` in
`updateImageReferences`, so one throwing `vault.read` aborts the whole
call: with two notes referencing `img.png` and the read of `n1.md`
throwing, the call raises instead of returning a count, and `n2.md` is
never processed (its stored content is untouched). -/
theorem c3_abort_counterexample :
    (updateImageReferences c3state "img.png" "pics/img.png").1 = Except.error ()
    ∧ lookupNote (updateImageReferences c3state "img.png" "pics/img.png").2 "n2.md"
        = some "![[img.png]]"
    ∧ (batchUpdateReferences c3state
        [("img.png", "pics/img.png"), ("x.png", "y.png")]).1 = Except.error () := by
  exact ⟨rfl, rfl, rfl⟩

/-- C3 amended: a referencing note that does not resolve to a file is
skipped without aborting the loop, and when no read or write throws, every
referencing note is processed and the returned count is exactly the number
of notes whose content actually changed (and was therefore written); a
batch likewise completes with an aggregate count.  A thrown read/write,
however, propagates and aborts the remaining notes and later pairs — see
the counterexample. -/
theorem c3_per_note_processing (s : LinkSt) (oldPath newPath : String)
    (hr : ∀ q, s.readFails q = false) (hw : ∀ q, s.writeFails q = false)
    (hnd : (s.resolvedLinks.map Prod.fst).Nodup) :
    (updateImageReferences s oldPath newPath).1 =
      Except.ok (((findNotesReferencingImage s.resolvedLinks oldPath).filter
        (noteWouldChange s oldPath newPath)).length)
    ∧ ∀ updates : List (String × String),
        ∃ t s', batchUpdateReferences s updates = (Except.ok t, s') := by
  constructor
  · have h1 := (uirLoop_spec oldPath newPath
      (findNotesReferencingImage s.resolvedLinks oldPath) 0 s s
      hr hw rfl (findNotesReferencing_nodup _ _ hnd) (fun m _ => rfl)).1
    rw [updateImageReferences_eq, h1, Nat.zero_add,
      List.countP_eq_length_filter]
  · intro updates
    exact burLoop_ok updates 0 s hr hw hnd

/-- C3 witness: the amended statement at a concrete two-note vault with
infallible I/O, where only the first note's content actually contains a
matching token. -/
theorem c3_per_note_processing_witness :
    (updateImageReferences c3okstate "img.png" "pics/img.png").1 =
      Except.ok (((findNotesReferencingImage c3okstate.resolvedLinks "img.png").filter
        (noteWouldChange c3okstate "img.png" "pics/img.png")).length)
    ∧ ∀ updates : List (String × String),
        ∃ t s', batchUpdateReferences c3okstate updates = (Except.ok t, s') :=
  c3_per_note_processing c3okstate "img.png" "pics/img.png"
    (fun _ => rfl) (fun _ => rfl) (by decide)

end ImageMaster

